import Mathlib

/-!
Verification of the tour-map waypoint server (`main.go`).

The development shallowly embeds the pure core of the program:

* `pruneWaypoints`   — main.go:454-483 (waypoint pruner)
* `mergeWaypoints` / `loadState` — main.go:147-189 (`loadWaypoints`, startup merge)
* `scanStep` / `scanStepPersist` — main.go:388-406 (`periodicWaypointScan`, live feed)
* `refreshCodes`     — main.go:318-339 (access-code refresh)
* `handleUpdatesWaypoints` — main.go:486-556 (`handleUpdates`, incremental query)
* `handleIndexWaypoints`   — main.go:596-609 (`handleIndex`, page geofence)

The geometric kernel `distanceKm` (main.go:433-450) is a float haversine on
transcendental functions; every algorithm above consumes it only through
comparisons against thresholds, so the embedding is parameterised by an
abstract distance function `Dist` with rational values.  Timestamps
(`time.Time`, compared only with `After`/`Compare`) are embedded as `ℤ`,
with `0` as the zero value.
-/

namespace TourMap

/-- GPS coordinates structure (main.go:35-38). -/
structure GPSCoords where
  latitude : ℚ
  longitude : ℚ
deriving DecidableEq, Repr, Inhabited

/-- A live-tracking entry (main.go:41-44): a possibly-missing location
(`*GPSCoords` pointer) plus a timestamp. -/
structure Waypoint where
  location : Option GPSCoords
  timestamp : ℤ
deriving DecidableEq, Repr, Inhabited

/-- Dereference of `wp.Location` as done by the handlers and the pruner,
which access the pointer without a nil check (the merged track only ever
contains located waypoints). -/
def loc (w : Waypoint) : GPSCoords := w.location.getD default

/-- Abstract stand-in for `distanceKm` (main.go:433-450): the algorithms use
it only through threshold comparisons. -/
abbrev Dist := GPSCoords → GPSCoords → ℚ

/-- `minDistanceKm = 0.02` (main.go:459); `mkRat 1 50 = 0.02`. -/
def minDistanceKm : ℚ := mkRat 1 50

/-- The 10 km geofence radius used by both read paths (main.go:533, 603). -/
def restrictRadiusKm : ℚ := 10

/-! ### Waypoint pruner (main.go:454-483) -/

/-- One iteration of the pruning loop (main.go:464-480): compare the current
waypoint against the last kept one and append it when the distance reaches
the threshold. -/
def pruneStep (dist : Dist) (acc : List Waypoint) (c : Waypoint) : List Waypoint :=
  if minDistanceKm ≤ dist (loc (acc.getLast?.getD default)) (loc c) then acc ++ [c] else acc

/-- `pruneWaypoints` (main.go:454-483): inputs of length ≤ 1 are returned
unchanged; otherwise the first waypoint is always kept and the loop body
`pruneStep` runs over the remainder. -/
def pruneWaypoints (dist : Dist) (ws : List Waypoint) : List Waypoint :=
  if ws.length ≤ 1 then ws
  else
    match ws with
    | [] => []
    | w :: rest => rest.foldl (pruneStep dist) [w]

/-- Recursive presentation of the pruning loop: `pruneRecAux dist last rest`
processes `rest` with `last` as the most recently retained waypoint. -/
def pruneRecAux (dist : Dist) : Waypoint → List Waypoint → List Waypoint
  | _, [] => []
  | last, c :: rest =>
    if minDistanceKm ≤ dist (loc last) (loc c) then c :: pruneRecAux dist c rest
    else pruneRecAux dist last rest

/-- Recursive presentation of `pruneWaypoints`. -/
def pruneRec (dist : Dist) : List Waypoint → List Waypoint
  | [] => []
  | w :: rest => w :: pruneRecAux dist w rest

/-- The local sparseness invariant of the Track (spec §3): every two
consecutive points are at least `minDistanceKm` apart. -/
def chainedMinDistB (dist : Dist) : List Waypoint → Bool
  | [] => true
  | [_] => true
  | a :: b :: rest =>
    decide (minDistanceKm ≤ dist (loc a) (loc b)) && chainedMinDistB dist (b :: rest)

/-! ### Geofence scan shared by both read paths (main.go:529-544, 598-608) -/

/-- The backward scan `for ; i >= 0; i--` of main.go:531-536 and 600-606,
counting down from index `n-1`: the result is the loop's final value of `i`,
the largest index whose distance from `lastPt` is more than 10 km, or `-1`
when every point is within the radius. -/
def scanBackAux (dist : Dist) (lastPt : GPSCoords) (pts : List GPSCoords) : ℕ → ℤ
  | 0 => -1
  | n + 1 =>
    if restrictRadiusKm < dist lastPt (pts.getD n default) then (n : ℤ)
    else scanBackAux dist lastPt pts n

/-- The value of `i` after the backward scan starting at `len(pts)-1`. -/
def breakIdx (dist : Dist) (lastPt : GPSCoords) (pts : List GPSCoords) : ℤ :=
  scanBackAux dist lastPt pts pts.length

/-- The `since` filter (main.go:515, 548): with no `since` parameter every
waypoint passes, otherwise only timestamps strictly after `since`
(`wp.Timestamp.After(since)`). -/
def sinceOk (since : Option ℤ) (w : Waypoint) : Bool :=
  match since with
  | none => true
  | some t => t < w.timestamp

/-- The restricted view computed by `handleUpdates` for a caller without a
valid code (main.go:529-544): `keepCount = i+1`, reset to the full length
when `i+1 ≤ 0`, and the track is sliced as `allWaypoints[:keepCount]`. -/
def restrictView (dist : Dist) (track : List Waypoint) : List Waypoint :=
  let allW := track.map loc
  if allW.length > 0 then
    let i := breakIdx dist (allW.getLast?.getD default) allW
    let keepCount : ℕ := if i + 1 ≤ 0 then allW.length else (i + 1).toNat
    track.take keepCount
  else []

/-- Modelled from the spec (§4.6 Geofence Filter), for comparison with the
code's `restrictView`: with `i` the largest index whose distance from the
last point L exceeds the radius, the retained part is the trailing slice
`track[i+1:]`; when no such index exists the whole track is retained. -/
def restrictSpecSuffix (dist : Dist) (track : List Waypoint) : List Waypoint :=
  let allW := track.map loc
  if allW.length > 0 then
    let i := breakIdx dist (allW.getLast?.getD default) allW
    track.drop (i + 1).toNat
  else []

/-- The eligible set of the incremental query engine (spec §4.7): the whole
track for a full-tier caller, the restricted view otherwise. -/
def eligibleSet (dist : Dist) (hasCode : Bool) (track : List Waypoint) : List Waypoint :=
  if hasCode then track else restrictView dist track

/-! ### The incremental-update endpoint (main.go:486-556) -/

/-- The waypoint/lastModified portion of `handleUpdates` (main.go:500-556),
after `since` parsing: membership of `code` in the codes set selects the
full branch (lines 511-521) or the 10 km-restricted branch (lines 522-556).
Both loops append `[lat, lng]` pairs for the waypoints passing the `since`
filter; the restricted branch iterates `app.waypoints[:keepCount]` alongside
`restrictedWaypoints = allWaypoints[:keepCount]` and reads `lastModified`
from `app.waypoints[keepCount-1]`. -/
def handleUpdatesWaypoints (dist : Dist) (codes : List String) (code : String)
    (since : Option ℤ) (track : List Waypoint) : List GPSCoords × ℤ :=
  if code ∈ codes then
    (track.foldl (fun out wp => if sinceOk since wp then out ++ [loc wp] else out) [],
      if track.length > 0 then (track.getLast?.getD default).timestamp else 0)
  else
    let allW := track.map loc
    if allW.length > 0 then
      let lastWaypoint := allW.getLast?.getD default
      let i := breakIdx dist lastWaypoint allW
      let keepCount : ℕ := if i + 1 ≤ 0 then allW.length else (i + 1).toNat
      let restrictedWaypoints := allW.take keepCount
      (((track.take keepCount).zip restrictedWaypoints).foldl
          (fun out p => if sinceOk since p.1 then out ++ [p.2] else out) [],
        if track.length > 0 ∧ keepCount > 0 then (track.getD (keepCount - 1) default).timestamp
        else 0)
    else ([], 0)

/-! ### The full-page endpoint (main.go:583-645) -/

/-- The waypoint dataset embedded by `handleIndex` (main.go:589-609): the
track is flattened to coordinates, and for a caller whose code is not in the
codes set (and a non-empty track) the same backward scan runs, after which
the slice `waypoints[:i+1]` is kept — with no adjustment when `i` is `-1`. -/
def handleIndexWaypoints (dist : Dist) (codes : List String) (code : String)
    (track : List Waypoint) : List GPSCoords :=
  let waypoints := track.map loc
  if code ∉ codes ∧ waypoints.length > 0 then
    let lastWaypoint := waypoints.getLast?.getD default
    let i := breakIdx dist lastWaypoint waypoints
    waypoints.take (i + 1).toNat
  else waypoints

/-! ### Startup merge (main.go:85-189) -/

/-- Timestamp order used by `slices.SortFunc(..., Timestamp.Compare)`
(main.go:153, 171). -/
def wpLE (a b : Waypoint) : Prop := a.timestamp ≤ b.timestamp

instance : DecidableRel wpLE := fun a b => inferInstanceAs (Decidable (a.timestamp ≤ b.timestamp))

instance : IsTotal Waypoint wpLE := ⟨fun a b => le_total a.timestamp b.timestamp⟩

instance : IsTrans Waypoint wpLE := ⟨fun _ _ _ h1 h2 => le_trans h1 h2⟩

/-- Sorting by timestamp, embedded as insertion sort; the program relies on
sortedness and on the output being a permutation of the input. -/
def sortTs (l : List Waypoint) : List Waypoint := l.insertionSort wpLE

/-- The latest FIT timestamp as the source computes it (main.go:152-157):
the last element of the FIT waypoints sorted by timestamp. -/
def latestFitTs (fit : List Waypoint) : ℤ :=
  ((sortTs fit).getLast?.getD default).timestamp

/-- The merge pipeline of `loadWaypoints` (main.go:147-176): JSON waypoints
without a location are dropped at parse time (main.go:107); when FIT
waypoints exist they are sorted, `latestFitTs` is the sorted list's last
timestamp, and only JSON waypoints strictly after it survive
(main.go:151-165); the concatenation is then sorted by timestamp
(main.go:171-173). -/
def mergeWaypoints (json fit : List Waypoint) : List Waypoint :=
  sortTs
    (if fit.length > 0 then
      (json.filter fun w => w.location.isSome).filter
          (fun w => latestFitTs fit < w.timestamp)
        ++ sortTs fit
    else json.filter fun w => w.location.isSome)

/-- The Track/Watermark pair (main.go:48-49). -/
structure AppState where
  waypoints : List Waypoint
  latestWaypoint : Option ℤ
deriving DecidableEq, Repr

/-- `loadWaypoints` (main.go:85-189) as a state builder: the merged track is
pruned, and the watermark is set to the last pruned element's timestamp when
the result is non-empty (main.go:178-181), otherwise it stays `nil`. -/
def loadState (dist : Dist) (json fit : List Waypoint) : AppState :=
  let pruned := pruneWaypoints dist (mergeWaypoints json fit)
  { waypoints := pruned
    latestWaypoint := pruned.getLast?.map Waypoint.timestamp }

/-! ### Live feed integration (main.go:388-406) -/

/-- The admission gate of main.go:398:
`app.latestWaypoint == nil || fetchedWaypoints.Timestamp.After(*app.latestWaypoint)`. -/
def admits (s : AppState) (c : Waypoint) : Bool :=
  match s.latestWaypoint with
  | none => true
  | some t => t < c.timestamp

/-- The in-memory effect of one fetched candidate (main.go:396-402): a
candidate with a location is appended iff the watermark admits it, and the
watermark becomes the candidate's timestamp on the same step. -/
def scanStep (s : AppState) (c : Waypoint) : AppState :=
  if c.location.isSome then
    if admits s c then
      { waypoints := s.waypoints ++ [c], latestWaypoint := some c.timestamp }
    else s
  else s

/-- One fetched-candidate iteration including the best-effort persistence
(main.go:396-406): when the candidate carries a location, the raw response
body is written to `data/tracking_<ts>.json` after the admission block,
whether or not the candidate was admitted, and the error value of
`os.WriteFile` is discarded.  `writeOk` models the write's outcome; the
returned Bool records whether a write was attempted. -/
def scanStepPersist (s : AppState) (c : Waypoint) (writeOk : Bool) : AppState × Bool :=
  if c.location.isSome then
    (if admits s c then
        { waypoints := s.waypoints ++ [c], latestWaypoint := some c.timestamp }
      else s,
      true)
  else (s, false)

/-- Reachable Track/Watermark states: a startup load from arbitrary parsed
source files followed by any number of live-feed steps. -/
inductive Reachable (dist : Dist) : AppState → Prop
  | load (json fit : List Waypoint) : Reachable dist (loadState dist json fit)
  | step {s : AppState} (c : Waypoint) : Reachable dist s → Reachable dist (scanStep s c)

/-! ### Access codes (main.go:318-339, 500-504) -/

/-- One pass of the codes refresh (main.go:318-339): the file content is
trimmed as a whole; when non-blank it is split on newlines and every line is
trimmed and inserted unless blank.  Entries are only ever added. -/
def refreshCodes (codes : List String) (data : String) : List String :=
  let trimmed := data.trim
  if trimmed = "" then codes
  else
    (trimmed.splitOn "\n").foldl
      (fun acc codeLine =>
        let c := codeLine.trim
        if c = "" then acc else acc.insert c)
      codes

/-- Reachable access-code sets: the empty initial map (main.go:61) grown by
refresh passes.  The Go `map[string]struct{}` is embedded as a duplicate-free
list observed only through membership. -/
inductive CodesReachable : List String → Prop
  | init : CodesReachable []
  | refresh {codes} (data : String) : CodesReachable codes → CodesReachable (refreshCodes codes data)

/-- The access check of both handlers (main.go:503, 598):
`_, hasValidCode := app.codes[code]`. -/
def hasValidCode (codes : List String) (code : String) : Bool := code ∈ codes

/-- The admission rule in the spec's words (§4.4): the candidate carries a
coordinate AND (the Watermark is unset OR the candidate's timestamp is
strictly after the Watermark). -/
def AcceptCond (s : AppState) (c : Waypoint) : Prop :=
  c.location.isSome = true
    ∧ (s.latestWaypoint = none ∨ ∃ t, s.latestWaypoint = some t ∧ t < c.timestamp)

/-! ### Concrete instances used by witnesses and counterexamples

The coordinates are the ones pinned by the repository's own tests
(`main_test.go`): two Manhattan points about 0.8 km apart, a Los Angeles
point about 3936 km from either, and a point about 0.157 m from the second
Manhattan point.  `distEx` is a concrete rational distance function agreeing
with the haversine values the tests assert for these pairs; the algorithms
consume the distance function only through threshold comparisons. -/

/-- (40.7128, -74.0060). -/
def pNY1 : GPSCoords := ⟨mkRat 407128 10000, mkRat (-740060) 10000⟩

/-- (40.7200, -74.0070). -/
def pNY2 : GPSCoords := ⟨mkRat 407200 10000, mkRat (-740070) 10000⟩

/-- (40.7200001, -74.0070001), about 0.157 m from `pNY2`. -/
def pNY2b : GPSCoords := ⟨mkRat 4072000001 100000000, mkRat (-7400700001) 100000000⟩

/-- (34.0522, -118.2437). -/
def pLA : GPSCoords := ⟨mkRat 340522 10000, mkRat (-1182437) 10000⟩

/-- Distance table for the four example coordinates: 0 on the diagonal,
0.8 km between the Manhattan points, 0.000157 km between `pNY2` and
`pNY2b`, 3936 km to Los Angeles, 1 km for every other pair. -/
def distEx : Dist := fun a b =>
  if a = b then 0
  else if (a = pNY1 ∧ b = pNY2) ∨ (a = pNY2 ∧ b = pNY1) then mkRat 4 5
  else if (a = pNY2 ∧ b = pNY2b) ∨ (a = pNY2b ∧ b = pNY2) then mkRat 157 1000000
  else if a = pLA ∨ b = pLA then 3936
  else 1

def exW1 : Waypoint := ⟨some pNY1, 1⟩

def exW2 : Waypoint := ⟨some pNY2, 2⟩

def exWFar : Waypoint := ⟨some pLA, 2⟩

/-- A candidate about 0.000157 km from `exW2`, with a fresh timestamp. -/
def exCandNear : Waypoint := ⟨some pNY2b, 3⟩

/-- A located candidate whose timestamp is not after the watermark. -/
def exStaleCand : Waypoint := ⟨some pLA, 0⟩

/-- The state after a startup load of two JSON waypoints 0.8 km apart. -/
def exState0 : AppState := loadState distEx [exW1, exW2] []

/-- `exState0` after one accepted live-feed append of `exCandNear`. -/
def exBadState : AppState := scanStep exState0 exCandNear

def exFit : List Waypoint := [⟨some pNY1, 5⟩, ⟨some pNY2, 3⟩]

/-! ### Helper lemmas -/

theorem foldl_pruneStep_eq (dist : Dist) :
    ∀ (rest acc : List Waypoint) (last : Waypoint),
      rest.foldl (pruneStep dist) (acc ++ [last]) = acc ++ last :: pruneRecAux dist last rest := by
  intro rest
  induction rest with
  | nil => intro acc last; simp [pruneRecAux]
  | cons c rest ih =>
    intro acc last
    simp only [List.foldl_cons, pruneRecAux]
    by_cases h : minDistanceKm ≤ dist (loc last) (loc c)
    · rw [if_pos h]
      have hstep : pruneStep dist (acc ++ [last]) c = (acc ++ [last]) ++ [c] := by
        simp [pruneStep, List.getLast?_concat, h]
      rw [hstep, ih (acc ++ [last]) c]
      simp
    · rw [if_neg h]
      have hstep : pruneStep dist (acc ++ [last]) c = acc ++ [last] := by
        simp [pruneStep, List.getLast?_concat, h]
      rw [hstep, ih acc last]

theorem pruneWaypoints_eq_pruneRec (dist : Dist) (ws : List Waypoint) :
    pruneWaypoints dist ws = pruneRec dist ws := by
  match ws with
  | [] => rfl
  | [w] => rfl
  | w :: c :: rest =>
    show pruneWaypoints dist (w :: c :: rest) = w :: pruneRecAux dist w (c :: rest)
    have hlen : ¬ (w :: c :: rest).length ≤ 1 := by simp
    rw [pruneWaypoints, if_neg hlen]
    have := foldl_pruneStep_eq dist (c :: rest) [] w
    simpa using this

theorem pruneRecAux_sublist (dist : Dist) :
    ∀ (rest : List Waypoint) (last : Waypoint), (pruneRecAux dist last rest).Sublist rest := by
  intro rest
  induction rest with
  | nil => intro last; simp [pruneRecAux]
  | cons c rest ih =>
    intro last
    rw [pruneRecAux]
    by_cases h : minDistanceKm ≤ dist (loc last) (loc c)
    · rw [if_pos h]; exact (ih c).cons₂ c
    · rw [if_neg h]; exact (ih last).cons c

/-- Every waypoint the pruning loop keeps is at distance ≥ `minDistanceKm`
from the previously kept one. -/
theorem pruneRecAux_chained (dist : Dist) :
    ∀ (rest : List Waypoint) (last : Waypoint),
      chainedMinDistB dist (last :: pruneRecAux dist last rest) = true := by
  intro rest
  induction rest with
  | nil => intro last; simp [pruneRecAux, chainedMinDistB]
  | cons c rest ih =>
    intro last
    rw [pruneRecAux]
    by_cases h : minDistanceKm ≤ dist (loc last) (loc c)
    · rw [if_pos h]
      have := ih c
      simp only [chainedMinDistB, Bool.and_eq_true, decide_eq_true_eq]
      exact ⟨h, by simpa [chainedMinDistB] using this⟩
    · rw [if_neg h]; exact ih last

theorem pruneWaypoints_chained (dist : Dist) (ws : List Waypoint) :
    chainedMinDistB dist (pruneWaypoints dist ws) = true := by
  rw [pruneWaypoints_eq_pruneRec]
  match ws with
  | [] => rfl
  | w :: rest => exact pruneRecAux_chained dist rest w

theorem scanBackAux_bounds (dist : Dist) (lastPt : GPSCoords) (pts : List GPSCoords) :
    ∀ n : ℕ, -1 ≤ scanBackAux dist lastPt pts n ∧ scanBackAux dist lastPt pts n < n := by
  intro n
  induction n with
  | zero => simp [scanBackAux]
  | succ n ih =>
    rw [scanBackAux]
    by_cases h : restrictRadiusKm < dist lastPt (pts.getD n default)
    · rw [if_pos h]
      constructor
      · exact le_trans (by norm_num) (Int.ofNat_nonneg n)
      · exact_mod_cast Nat.lt_succ_self n
    · rw [if_neg h]
      exact ⟨ih.1, lt_trans ih.2 (by exact_mod_cast Nat.lt_succ_self n)⟩

theorem foldl_insertTrimmed_no_empty :
    ∀ (lines : List String) (acc : List String), "" ∉ acc →
      "" ∉ lines.foldl
        (fun acc codeLine =>
          let c := codeLine.trim
          if c = "" then acc else acc.insert c)
        acc := by
  intro lines
  induction lines with
  | nil => intro acc h; exact h
  | cons l rest ih =>
    intro acc h
    simp only [List.foldl_cons]
    apply ih
    show "" ∉ (if l.trim = "" then acc else acc.insert l.trim)
    by_cases hc : l.trim = ""
    · rw [if_pos hc]; exact h
    · rw [if_neg hc, List.mem_insert_iff]
      rintro (he | he)
      · exact hc he.symm
      · exact h he

theorem codes_reachable_no_empty {codes : List String} (h : CodesReachable codes) :
    "" ∉ codes := by
  induction h with
  | init => simp
  | refresh data hc ih =>
    rw [refreshCodes]
    by_cases ht : data.trim = ""
    · rw [if_pos ht]; exact ih
    · rw [if_neg ht]
      exact foldl_insertTrimmed_no_empty (data.trim.splitOn "\n") _ ih

theorem sortTs_perm (l : List Waypoint) : (sortTs l).Perm l :=
  List.perm_insertionSort wpLE l

theorem sortTs_sorted (l : List Waypoint) : (sortTs l).Sorted wpLE :=
  List.sorted_insertionSort wpLE l

theorem sortTs_ne_nil {l : List Waypoint} (h : l ≠ []) : sortTs l ≠ [] := by
  intro hc
  apply h
  have hlen := (sortTs_perm l).length_eq
  rw [hc] at hlen
  exact List.length_eq_zero.mp hlen.symm

/-- In a timestamp-sorted list every element's timestamp is at most the last
element's. -/
theorem sorted_le_getLastD :
    ∀ {l : List Waypoint}, l.Sorted wpLE →
      ∀ x ∈ l, x.timestamp ≤ (l.getLast?.getD default).timestamp := by
  intro l
  induction l with
  | nil => intro _ x hx; cases hx
  | cons a t ih =>
    intro hs x hx
    cases t with
    | nil =>
      have hxa : x = a := by simpa using hx
      subst hxa
      simp [List.getLast?]
    | cons b t2 =>
      rw [List.getLast?_cons_cons]
      rcases List.mem_cons.mp hx with rfl | hxt
      · have hrel := List.rel_of_sorted_cons hs
        have hne : (b :: t2) ≠ [] := by simp
        have hmem : (b :: t2).getLast?.getD default ∈ b :: t2 := by
          rw [List.getLast?_eq_getLast _ hne]
          simpa using List.getLast_mem hne
        exact hrel _ hmem
      · exact ih hs.of_cons x hxt

theorem latestFitTs_mem {fit : List Waypoint} (h : fit ≠ []) :
    latestFitTs fit ∈ fit.map Waypoint.timestamp := by
  rw [latestFitTs]
  have hne := sortTs_ne_nil h
  rw [List.getLast?_eq_getLast _ hne]
  simp only [Option.getD_some]
  exact List.mem_map_of_mem _ ((sortTs_perm fit).mem_iff.mp (List.getLast_mem hne))

theorem latestFitTs_is_max {fit : List Waypoint} (_h : fit ≠ []) :
    ∀ w ∈ fit, w.timestamp ≤ latestFitTs fit := by
  intro w hw
  exact sorted_le_getLastD (sortTs_sorted fit) w ((sortTs_perm fit).mem_iff.mpr hw)

/-- The full-tier response loop (main.go:513-518) appends the coordinates of
exactly the waypoints passing the `since` filter, in order. -/
theorem foldl_since_eq (since : Option ℤ) :
    ∀ (l : List Waypoint) (acc : List GPSCoords),
      l.foldl (fun out wp => if sinceOk since wp then out ++ [loc wp] else out) acc
        = acc ++ (l.filter (sinceOk since)).map loc := by
  intro l
  induction l with
  | nil => intro acc; simp
  | cons a t ih =>
    intro acc
    simp only [List.foldl_cons]
    by_cases h : sinceOk since a = true
    · rw [if_pos h, ih, List.filter_cons_of_pos h]
      simp
    · rw [if_neg h, ih, List.filter_cons_of_neg (by simpa using h)]

/-- The restricted-tier response loop (main.go:547-551), iterating the
waypoint slice alongside its coordinate image. -/
theorem zip_loc_foldl_eq (since : Option ℤ) :
    ∀ (l : List Waypoint) (acc : List GPSCoords),
      (l.zip (l.map loc)).foldl
          (fun out p => if sinceOk since p.1 then out ++ [p.2] else out) acc
        = acc ++ (l.filter (sinceOk since)).map loc := by
  intro l
  induction l with
  | nil => intro acc; simp
  | cons a t ih =>
    intro acc
    simp only [List.map_cons, List.zip_cons_cons, List.foldl_cons]
    by_cases h : sinceOk since a = true
    · rw [if_pos h, ih, List.filter_cons_of_pos h]
      simp
    · rw [if_neg h, ih, List.filter_cons_of_neg (by simpa using h)]

theorem take_getLast?_eq (l : List Waypoint) (kc : ℕ) (h1 : 0 < kc) (h2 : kc ≤ l.length) :
    (l.take kc).getLast? = some (l.getD (kc - 1) default) := by
  rw [List.getLast?_eq_getElem?, List.length_take, Nat.min_eq_left h2,
    List.getElem?_take_of_lt (Nat.sub_lt h1 Nat.one_pos), List.getD_eq_getElem?_getD]
  have hlt : kc - 1 < l.length := lt_of_lt_of_le (Nat.sub_lt h1 Nat.one_pos) h2
  rw [List.getElem?_eq_getElem hlt]
  simp

/-! ### Claim theorems -/

/-- C8: for every query the returned coordinate list is exactly the eligible
set — the whole track for a full-tier caller, the code's restricted view for
every other caller — filtered to timestamps strictly after `since`
(everything when `since` is absent) and flattened to coordinates; and
`lastModified` is the timestamp of the eligible set's last element, not of
the `since`-filtered result, and the zero value when the eligible set is
empty. -/
theorem incremental_query_engine (dist : Dist) (codes : List String) (code : String)
    (since : Option ℤ) (track : List Waypoint) :
    (handleUpdatesWaypoints dist codes code since track).1
      = ((eligibleSet dist (decide (code ∈ codes)) track).filter (sinceOk since)).map loc
    ∧ (handleUpdatesWaypoints dist codes code since track).2
      = ((eligibleSet dist (decide (code ∈ codes)) track).getLast?.map
          Waypoint.timestamp).getD 0 := by
  by_cases hc : code ∈ codes
  · have hdec : decide (code ∈ codes) = true := by simp [hc]
    simp only [handleUpdatesWaypoints, if_pos hc, eligibleSet, hdec, if_true]
    constructor
    · rw [foldl_since_eq]
      simp
    · by_cases ht : track = []
      · subst ht; simp
      · rw [if_pos (List.length_pos.mpr ht), List.getLast?_eq_getLast _ ht]
        simp
  · have hdec : decide (code ∈ codes) = false := by simp [hc]
    simp only [handleUpdatesWaypoints, if_neg hc, eligibleSet, hdec,
      Bool.false_eq_true, if_false, restrictView]
    by_cases hlen : (track.map loc).length > 0
    · have htne : track ≠ [] := by
        intro h; subst h; simp at hlen
      rw [if_pos hlen, if_pos hlen]
      set pts := track.map loc with hpts
      set L := pts.getLast?.getD default with hL
      set i := breakIdx dist L pts with hi
      set kc := (if i + 1 ≤ 0 then pts.length else (i + 1).toNat) with hkc
      have hmap : pts.length = track.length := by
        rw [hpts]; exact List.length_map _ _
      have hival : -1 ≤ i ∧ i < (pts.length : ℤ) := by
        rw [hi]; exact scanBackAux_bounds dist L pts pts.length
      have hkc_pos : 0 < kc := by
        rw [hkc]; split
        · exact hlen
        · omega
      have hkc_le : kc ≤ track.length := by
        rw [hkc]; split
        · omega
        · omega
      constructor
      · rw [← List.map_take, zip_loc_foldl_eq]
        simp
      · rw [if_pos ⟨List.length_pos.mpr htne, hkc_pos⟩,
          take_getLast?_eq track kc hkc_pos hkc_le]
        simp
    · rw [if_neg hlen, if_neg hlen]
      simp

/-- C7: when at least one FIT waypoint exists, the "latest FIT timestamp"
computed by the source (the last element after sorting, `latestFitTs`) is
the maximum FIT timestamp, and the merged pre-prune track is a permutation
of: the located JSON waypoints whose timestamp is strictly after it,
followed by all FIT waypoints — so an archived position is included exactly
when it is strictly after the single latest recorder timestamp; the merge
output is sorted by timestamp; and the loaded track is its pruning.  With
no FIT waypoints the merge is a sorted permutation of the located JSON
waypoints alone. -/
theorem merge_pipeline (dist : Dist) (json fit : List Waypoint) :
    (fit ≠ [] →
      latestFitTs fit ∈ fit.map Waypoint.timestamp
      ∧ (∀ w ∈ fit, w.timestamp ≤ latestFitTs fit)
      ∧ (mergeWaypoints json fit).Perm
          ((json.filter fun w => decide (latestFitTs fit < w.timestamp) && w.location.isSome)
            ++ fit))
    ∧ (fit = [] → (mergeWaypoints json fit).Perm (json.filter fun w => w.location.isSome))
    ∧ (mergeWaypoints json fit).Sorted wpLE
    ∧ (loadState dist json fit).waypoints = pruneWaypoints dist (mergeWaypoints json fit) := by
  refine ⟨?_, ?_, sortTs_sorted _, rfl⟩
  · intro hne
    refine ⟨latestFitTs_mem hne, latestFitTs_is_max hne, ?_⟩
    have hlen : fit.length > 0 := List.length_pos.mpr hne
    rw [mergeWaypoints, if_pos hlen]
    refine (sortTs_perm _).trans ?_
    rw [List.filter_filter]
    exact List.Perm.append_left _ (sortTs_perm fit)
  · intro hnil
    subst hnil
    rw [mergeWaypoints, if_neg (by simp)]
    exact sortTs_perm _

/-- C7 witness: the merge theorem at the concrete FIT list `exFit`
(timestamps 5 and 3): the source's latest-FIT computation yields 5, the
maximum. -/
theorem merge_pipeline_witness :
    exFit ≠ [] ∧ latestFitTs exFit = 5
    ∧ (∀ w ∈ exFit, w.timestamp ≤ latestFitTs exFit) :=
  ⟨by decide, by decide, ((merge_pipeline distEx [] exFit).1 (by decide)).2.1⟩

/-- C4: in every reachable state the watermark equals the timestamp of the
track's last element — in particular it is set and equal to the last
element's timestamp whenever the track is non-empty, and unset when the
startup merge produced an empty track and no append has happened since. -/
theorem watermark_matches_last (dist : Dist) (s : AppState) (h : Reachable dist s) :
    s.latestWaypoint = s.waypoints.getLast?.map Waypoint.timestamp := by
  induction h with
  | load json fit => rfl
  | @step s2 c hs ih =>
    rw [scanStep]
    by_cases hloc : c.location.isSome = true
    · rw [if_pos hloc]
      by_cases hadm : admits s2 c = true
      · rw [if_pos hadm]
        simp [List.getLast?_concat]
      · rw [if_neg hadm]; exact ih
    · rw [if_neg hloc]; exact ih

/-- C4 witness: the invariant at the concrete reachable state `exBadState`,
whose last element is the appended candidate with timestamp 3. -/
theorem watermark_matches_last_witness :
    exBadState.latestWaypoint = some 3 ∧ exBadState.waypoints.getLast? = some exCandNear :=
  ⟨(watermark_matches_last distEx exBadState
      (Reachable.step exCandNear (Reachable.load [exW1, exW2] []))).trans (by decide),
    by decide⟩

/-- C10: a caller is granted the full tier exactly when the supplied secret
is a member of the codes set; the empty string — the value of a missing
`code` query parameter — is never a member of any reachable codes set,
because the refresh trims lines and skips blanks; and over the initial
empty set every secret resolves to the restricted tier, so zero configured
codes behave like an invalid code. -/
theorem access_tier_resolver (codes : List String) (secret : String)
    (h : CodesReachable codes) :
    (hasValidCode codes secret = true ↔ secret ∈ codes)
    ∧ "" ∉ codes
    ∧ (∀ s2 : String, hasValidCode [] s2 = false) := by
  refine ⟨?_, codes_reachable_no_empty h, ?_⟩
  · simp [hasValidCode]
  · intro s2; simp [hasValidCode]

/-- C10 witness: the resolver theorem at the initial (zero configured codes)
reachable state — every caller, here one presenting `alpha`, is restricted,
and the empty string is not a member. -/
theorem access_tier_resolver_witness :
    hasValidCode [] "alpha" = false ∧ "" ∉ ([] : List String) :=
  ⟨(access_tier_resolver [] "alpha" CodesReachable.init).2.2 "alpha",
    (access_tier_resolver [] "alpha" CodesReachable.init).2.1⟩

/-- C6: the waypoint pruner returns empty and single-element inputs
unchanged; for every non-empty input the output is non-empty and keeps the
input's first element; and the loop equals the recursion `pruneRec`, which
retains a subsequent element exactly when its distance to the last RETAINED
element is at least `minDistanceKm` (comparison `≥`, so a tie exactly at
0.02 km is retained). -/
theorem pruner_contract (dist : Dist) :
    pruneWaypoints dist [] = []
    ∧ (∀ w, pruneWaypoints dist [w] = [w])
    ∧ (∀ ws, pruneWaypoints dist ws = pruneRec dist ws)
    ∧ (∀ last c rest,
        pruneRecAux dist last (c :: rest)
          = if minDistanceKm ≤ dist (loc last) (loc c) then c :: pruneRecAux dist c rest
            else pruneRecAux dist last rest)
    ∧ (∀ w rest, pruneWaypoints dist (w :: rest) ≠ []
        ∧ (pruneWaypoints dist (w :: rest)).head? = some w) := by
  refine ⟨rfl, fun w => rfl, pruneWaypoints_eq_pruneRec dist, fun last c rest => rfl, ?_⟩
  intro w rest
  rw [pruneWaypoints_eq_pruneRec]
  exact ⟨by simp [pruneRec], by simp [pruneRec]⟩

/-- C2 (amended): the startup merge establishes the consecutive
minimum-distance invariant — the loaded track is the output of
`pruneWaypoints`, so every consecutive pair is at least 0.02 km apart; the
live-feed append step checks only the coordinate and the watermark, not the
distance, and does not preserve the invariant (see
`live_append_breaks_spacing`). -/
theorem startup_merge_establishes_spacing (dist : Dist) (json fit : List Waypoint) :
    chainedMinDistB dist (loadState dist json fit).waypoints = true :=
  pruneWaypoints_chained dist (mergeWaypoints json fit)

/-- C2 counterexample: a reachable state — the startup load of two waypoints
0.8 km apart followed by one accepted live-feed append 0.000157 km from the
track's last point — whose final consecutive pair violates the 0.02 km
minimum spacing. -/
theorem live_append_breaks_spacing :
    Reachable distEx exBadState
    ∧ 2 ≤ exBadState.waypoints.length
    ∧ chainedMinDistB distEx exBadState.waypoints = false :=
  ⟨Reachable.step exCandNear (Reachable.load [exW1, exW2] []), by decide, by decide⟩

/-- C5: a polled candidate is appended — with the watermark set to its
timestamp on the same step — exactly when it carries a coordinate and the
watermark is unset or strictly before its timestamp; a rejected candidate
(missing coordinate, equal, or earlier timestamp) leaves Track and Watermark
unchanged. -/
theorem live_feed_admission (s : AppState) (c : Waypoint) :
    (AcceptCond s c →
      scanStep s c = { waypoints := s.waypoints ++ [c], latestWaypoint := some c.timestamp })
    ∧ (¬ AcceptCond s c → scanStep s c = s) := by
  constructor
  · rintro ⟨hloc, hadm⟩
    rw [scanStep, if_pos hloc]
    have hadm' : admits s c = true := by
      rcases hadm with h | ⟨t, ht, hlt⟩
      · simp [admits, h]
      · simp [admits, ht, hlt]
    rw [if_pos hadm']
  · intro hn
    rw [scanStep]
    by_cases hloc : c.location.isSome = true
    · rw [if_pos hloc]
      have hadm : ¬ admits s c = true := by
        intro hadm
        apply hn
        refine ⟨hloc, ?_⟩
        unfold admits at hadm
        match hw : s.latestWaypoint with
        | none => exact Or.inl rfl
        | some t =>
          rw [hw] at hadm
          exact Or.inr ⟨t, rfl, by simpa using hadm⟩
      rw [if_neg hadm]
    · rw [if_neg hloc]

/-- C5 witness: the admission theorem at the concrete accepted candidate
`exCandNear` over `exState0` (watermark 2, candidate timestamp 3). -/
theorem live_feed_admission_witness :
    scanStep exState0 exCandNear
      = { waypoints := exState0.waypoints ++ [exCandNear], latestWaypoint := some 3 } :=
  (live_feed_admission exState0 exCandNear).1 ⟨rfl, Or.inr ⟨2, rfl, by decide⟩⟩

/-- C9 counterexample: at the reachable state `exState0` (watermark 2), the
located but stale candidate `exStaleCand` (timestamp 0) is NOT appended —
the in-memory state is unchanged — yet the persistence write is still
attempted, so persistence is not "if and only if accepted into the Track". -/
theorem persisted_without_acceptance :
    (scanStepPersist exState0 exStaleCand true).2 = true
    ∧ (scanStepPersist exState0 exStaleCand true).1 = exState0 :=
  ⟨by decide, by decide⟩

/-- C9 (amended): the persistence write is attempted exactly when the
candidate carries a coordinate — whether or not it was accepted into the
Track — and the write's outcome never influences the in-memory state, which
always equals the pure admission step's result (no rollback, no retry). -/
theorem persistence_best_effort (s : AppState) (c : Waypoint) (ok ok2 : Bool) :
    ((scanStepPersist s c ok).2 = true ↔ c.location.isSome = true)
    ∧ (scanStepPersist s c ok).1 = scanStep s c
    ∧ (scanStepPersist s c ok).1 = (scanStepPersist s c ok2).1 := by
  unfold scanStepPersist scanStep
  by_cases hloc : c.location.isSome = true
  · simp [hloc]
  · simp [hloc]

/-- C1 (code bug): on a two-point track whose first point is about 3936 km
(> 10 km) from the last point L, the restricted view kept by the update
endpoint is exactly the far first point — at more than 10 km from L — and
the trailing point within the radius is dropped: the code slices
`allWaypoints[:i+1]` (the leading part, up to the scan's break index) where
the claim and the code's own comment at main.go:537 describe the trailing
part `track[i+1:]`, computed here by the spec-modelled `restrictSpecSuffix`. -/
theorem geofence_keeps_far_point :
    restrictView distEx [exW1, exWFar] = [exW1]
    ∧ handleUpdatesWaypoints distEx [] "" none [exW1, exWFar] = ([pNY1], 1)
    ∧ restrictRadiusKm < distEx (loc exW1) (loc exWFar)
    ∧ restrictSpecSuffix distEx [exW1, exWFar] = [exWFar] :=
  ⟨by decide, by decide, by decide, by decide⟩

/-- C3 (code bug): on a two-point track with both points within 10 km of the
last one and no valid code, the update endpoint (no `since`) returns both
coordinates while the full-page endpoint returns none: `handleUpdates`
resets `keepCount` to the whole length when the scan finds no point beyond
the radius (main.go:539-542), but `handleIndex` keeps `waypoints[:i+1]` with
`i = -1` (main.go:608), so the two read paths disagree on this caller. -/
theorem page_api_disagree :
    (handleUpdatesWaypoints distEx [] "" none [exW1, exW2]).1 = [pNY1, pNY2]
    ∧ handleIndexWaypoints distEx [] "" [exW1, exW2] = []
    ∧ (handleUpdatesWaypoints distEx [] "" none [exW1, exW2]).1
        ≠ handleIndexWaypoints distEx [] "" [exW1, exW2] :=
  ⟨by decide, by decide, by decide⟩

end TourMap
